import Mathlib

/-!
Verification of the CFile read path (`src/cfile/cfile_reader.h`).

The repository ships only the headers: `cfile_reader.h` declares
`CFileReader`, `BlockData` and `CFileIterator` and carries the inline
bodies of the accessors, the `BlockData` copy constructor and the
`scoped_ptr` overload of `NewIterator`; the out-of-line bodies
(`SeekToOrdinal`, `SeekAtOrAfter`, `GetCurrentOrdinal`, `CopyNextValues`,
`Init`, ...) live in a `.cc` file that is not part of the sources.  Those
operations are therefore modelled from the specification (its §3, §4.2 and
§8), each such definition marked `Modelled from the spec:` in its doc
comment.  Inline header code is translated directly.
-/

namespace kudu

/-- Status result codes of `util/status.h` as used by the cfile read path
(spec §7 error taxonomy). -/
inductive Status
  | OK
  | NotFound
  | Corruption
  | NotSupported
  | IOError
deriving DecidableEq, Repr

namespace cfile

/-- Modelled from the spec: the logical content of a cfile as seen by
`CFileIterator` (the iterator bodies are in the missing `cfile_reader.cc`).
`blocks` is the ordered list of data blocks, each block the decoded list of
its values (values modelled as `Nat`); `hasValidx` records whether the
footer carries a value-index root (spec §3: absence of an index root
disables that seek mode). -/
structure CFileModel where
  blocks : List (List Nat)
  hasValidx : Bool

/-- Modelled from the spec: the cursor state machine `Unseeked → Seeked`
(spec §4.2).  A seeked cursor records the index of the currently loaded
block and the decoder's in-block offset. -/
inductive IterState
  | unseeked
  | seeked (blockIdx : Nat) (offset : Nat)
deriving DecidableEq, Repr

/-- Row count of a block list: sum of the per-block value counts. -/
def rowCountL (bs : List (List Nat)) : Nat := (bs.map List.length).sum

/-- Total number of rows of the file (the footer's row-count field,
spec §4.1 `CountRows`). -/
def CFileModel.rowCount (f : CFileModel) : Nat := rowCountL f.blocks

/-- First absolute ordinal covered by block `b` (spec §3: per-block ordinal
range `[first_ordinal, first_ordinal + count)`). -/
def firstOrdinalL (bs : List (List Nat)) (b : Nat) : Nat :=
  ((bs.take b).map List.length).sum

/-- All column values in file order: the blocks concatenated. -/
def allValues (f : CFileModel) : List Nat := f.blocks.flatten

/-- Modelled from the spec: resolution of an absolute ordinal through the
positional index to the covering block and the in-block offset (spec §4.2
SeekToOrdinal: the decoder is advanced to the exact in-block offset
corresponding to `ord_idx`). -/
def findBlock : List (List Nat) → Nat → Nat × Nat
  | [], ord => (0, ord)
  | blk :: rest, ord =>
    if ord < blk.length then (0, ord)
    else
      let r := findBlock rest (ord - blk.length)
      (r.1 + 1, r.2)

/-- Modelled from the spec: `CFileIterator::SeekToOrdinal` (spec §4.2): an
ordinal at or past `row_count` fails with `NotFound` and leaves the prior
cursor state untouched; otherwise the cursor moves to the covering block at
the exact in-block offset. -/
def seekToOrdinal (f : CFileModel) (s : IterState) (ord : Nat) :
    Status × IterState :=
  if ord < f.rowCount then
    (Status.OK,
      IterState.seeked (findBlock f.blocks ord).1 (findBlock f.blocks ord).2)
  else
    (Status.NotFound, s)

/-- Modelled from the spec: `CFileIterator::GetCurrentOrdinal` derives the
absolute ordinal as the current block's first ordinal plus the decoder's
in-block offset (spec §4.2); calling it before any successful seek is a
contract violation, rendered as `none`. -/
def getCurrentOrdinal (f : CFileModel) : IterState → Option Nat
  | IterState.unseeked => none
  | IterState.seeked b off => some (firstOrdinalL f.blocks b + off)

/-- GetCurrentOrdinal as a state transformer.  The header declares it
`const` (`uint32_t GetCurrentOrdinal() const;`, `cfile_reader.h:191`) and
the class has no mutable members, so the call reads the cursor fields and
returns the state unchanged. -/
def getCurrentOrdinalC (f : CFileModel) (s : IterState) :
    Option Nat × IterState :=
  (getCurrentOrdinal f s, s)

theorem firstOrdinalL_nil (b : Nat) : firstOrdinalL [] b = 0 := by
  simp [firstOrdinalL]

theorem firstOrdinalL_zero (bs : List (List Nat)) : firstOrdinalL bs 0 = 0 := by
  simp [firstOrdinalL]

theorem firstOrdinalL_succ (blk : List Nat) (rest : List (List Nat)) (j : Nat) :
    firstOrdinalL (blk :: rest) (j + 1) = blk.length + firstOrdinalL rest j := by
  simp [firstOrdinalL, List.take_succ_cons]

theorem rowCountL_cons (blk : List Nat) (rest : List (List Nat)) :
    rowCountL (blk :: rest) = blk.length + rowCountL rest := by
  simp [rowCountL]

/-- The block/offset pair located for an in-range ordinal recombines to that
ordinal, and is in bounds. -/
theorem findBlock_correct (bs : List (List Nat)) (ord : Nat)
    (h : ord < rowCountL bs) :
    firstOrdinalL bs (findBlock bs ord).1 + (findBlock bs ord).2 = ord ∧
    (findBlock bs ord).1 < bs.length ∧
    (findBlock bs ord).2 < (bs.getD (findBlock bs ord).1 []).length := by
  induction bs generalizing ord with
  | nil => simp [rowCountL] at h
  | cons blk rest ih =>
    by_cases hlt : ord < blk.length
    · simp [findBlock, hlt, firstOrdinalL_zero]
    · have hrest : ord - blk.length < rowCountL rest := by
        rw [rowCountL_cons] at h
        omega
      have := ih (ord - blk.length) hrest
      simp only [findBlock, hlt, if_false]
      refine ⟨?_, ?_, ?_⟩
      · rw [firstOrdinalL_succ]
        omega
      · simpa using this.2.1
      · simpa using this.2.2

/-- C1: For every valid ordinal `ord_idx` in `[0, row_count)`,
`SeekToOrdinal(ord_idx)` succeeds, and an immediately following
`GetCurrentOrdinal()` returns exactly `ord_idx`. -/
theorem seekToOrdinal_getCurrentOrdinal_roundtrip
    (f : CFileModel) (s : IterState) (ord : Nat) (h : ord < f.rowCount) :
    (seekToOrdinal f s ord).1 = Status.OK ∧
    getCurrentOrdinal f (seekToOrdinal f s ord).2 = some ord := by
  have hc := findBlock_correct f.blocks ord h
  constructor
  · simp [seekToOrdinal, h]
  · simp only [seekToOrdinal, h, if_true, getCurrentOrdinal]
    rw [hc.1]

/-- Witness for C1 on a concrete two-block file: seeking to ordinal 3
succeeds and the cursor reports ordinal 3. -/
theorem seekToOrdinal_getCurrentOrdinal_roundtrip_witness :
    (3 : Nat) < (CFileModel.mk [[10, 11], [12, 13, 14]] false).rowCount ∧
    ((seekToOrdinal (CFileModel.mk [[10, 11], [12, 13, 14]] false)
        IterState.unseeked 3).1 = Status.OK ∧
      getCurrentOrdinal (CFileModel.mk [[10, 11], [12, 13, 14]] false)
        (seekToOrdinal (CFileModel.mk [[10, 11], [12, 13, 14]] false)
          IterState.unseeked 3).2 = some 3) :=
  ⟨by decide,
    seekToOrdinal_getCurrentOrdinal_roundtrip
      (CFileModel.mk [[10, 11], [12, 13, 14]] false) IterState.unseeked 3
      (by decide)⟩

/-- C2: For every ordinal at or past `row_count`, `SeekToOrdinal` fails with
`NotFound` and the prior cursor state is returned unchanged by the failed
call. -/
theorem seekToOrdinal_pastEnd_notFound
    (f : CFileModel) (s : IterState) (ord : Nat) (h : f.rowCount ≤ ord) :
    (seekToOrdinal f s ord).1 = Status.NotFound ∧
    (seekToOrdinal f s ord).2 = s := by
  have hnot : ¬ ord < f.rowCount := by omega
  simp [seekToOrdinal, hnot]

/-- Witness for C2 on a concrete file with 5 rows: seeking to ordinal 5
fails with `NotFound` and a previously seeked cursor is untouched. -/
theorem seekToOrdinal_pastEnd_notFound_witness :
    (CFileModel.mk [[10, 11], [12, 13, 14]] false).rowCount ≤ 5 ∧
    ((seekToOrdinal (CFileModel.mk [[10, 11], [12, 13, 14]] false)
        (IterState.seeked 0 1) 5).1 = Status.NotFound ∧
      (seekToOrdinal (CFileModel.mk [[10, 11], [12, 13, 14]] false)
        (IterState.seeked 0 1) 5).2 = IterState.seeked 0 1) :=
  ⟨by decide,
    seekToOrdinal_pastEnd_notFound
      (CFileModel.mk [[10, 11], [12, 13, 14]] false) (IterState.seeked 0 1) 5
      (by decide)⟩

/-- C10: `GetCurrentOrdinal` is a pure observer: on every state reached by a
successful seek it returns a defined ordinal, leaves every field of the
iterator unchanged, and two consecutive calls return the same ordinal. -/
theorem getCurrentOrdinal_pure_observer
    (f : CFileModel) (s0 s : IterState) (ord : Nat)
    (h : seekToOrdinal f s0 ord = (Status.OK, s)) :
    (getCurrentOrdinalC f s).2 = s ∧
    (∃ i, (getCurrentOrdinalC f s).1 = some i) ∧
    (getCurrentOrdinalC f (getCurrentOrdinalC f s).2).1 =
      (getCurrentOrdinalC f s).1 := by
  refine ⟨rfl, ?_, rfl⟩
  by_cases hlt : ord < f.rowCount
  · simp only [seekToOrdinal, hlt, if_true, Prod.mk.injEq] at h
    rw [getCurrentOrdinalC, ← h.2, getCurrentOrdinal]
    exact ⟨_, rfl⟩
  · simp [seekToOrdinal, hlt] at h

/-- Witness for C10 at a concrete seeked state. -/
theorem getCurrentOrdinal_pure_observer_witness :
    seekToOrdinal (CFileModel.mk [[10, 11], [12, 13, 14]] false)
      IterState.unseeked 3 = (Status.OK, IterState.seeked 1 1) ∧
    ((getCurrentOrdinalC (CFileModel.mk [[10, 11], [12, 13, 14]] false)
        (IterState.seeked 1 1)).2 = IterState.seeked 1 1 ∧
      (∃ i, (getCurrentOrdinalC (CFileModel.mk [[10, 11], [12, 13, 14]] false)
        (IterState.seeked 1 1)).1 = some i) ∧
      (getCurrentOrdinalC (CFileModel.mk [[10, 11], [12, 13, 14]] false)
        (getCurrentOrdinalC (CFileModel.mk [[10, 11], [12, 13, 14]] false)
          (IterState.seeked 1 1)).2).1 =
        (getCurrentOrdinalC (CFileModel.mk [[10, 11], [12, 13, 14]] false)
          (IterState.seeked 1 1)).1) :=
  ⟨by decide,
    getCurrentOrdinal_pure_observer
      (CFileModel.mk [[10, 11], [12, 13, 14]] false) IterState.unseeked
      (IterState.seeked 1 1) 3 (by decide)⟩

/-- Modelled from the spec: in-block key search of the value index — the
index of the first value in the block that is at or after `key` (spec §4.2
SeekAtOrAfter: entries ordered by key ascending; the search finds the first
entry whose key is ≥ key). -/
def findInBlock : List Nat → Nat → Option Nat
  | [], _ => none
  | v :: rest, key =>
    if key ≤ v then some 0 else (findInBlock rest key).map (· + 1)

/-- Modelled from the spec: whole-file key search through the value index —
the (block, in-block offset) of the first entry at or after `key`, or `none`
when every key of the file is below `key`. -/
def findFirstGE : List (List Nat) → Nat → Option (Nat × Nat)
  | [], _ => none
  | blk :: rest, key =>
    match findInBlock blk key with
    | some off => some (0, off)
    | none => (findFirstGE rest key).map (fun p => (p.1 + 1, p.2))

/-- Modelled from the spec: `CFileIterator::SeekAtOrAfter` (spec §4.2): with
no value index it fails with `NotSupported`; when every key of the file is
below the sought key it fails with `NotFound`; otherwise it positions the
cursor on the first entry at or after the key and reports via `exact_match`
whether that entry's key equals the sought key exactly.  Result is
`(status, exact_match, new cursor state)`. -/
def seekAtOrAfter (f : CFileModel) (s : IterState) (key : Nat) :
    Status × Bool × IterState :=
  if f.hasValidx = false then
    (Status.NotSupported, false, s)
  else
    match findFirstGE f.blocks key with
    | none => (Status.NotFound, false, s)
    | some p =>
      (Status.OK, decide ((f.blocks.getD p.1 []).getD p.2 0 = key),
        IterState.seeked p.1 p.2)

theorem findInBlock_none_iff (blk : List Nat) (key : Nat) :
    findInBlock blk key = none ↔ ∀ v ∈ blk, v < key := by
  induction blk with
  | nil => simp [findInBlock]
  | cons v rest ih =>
    by_cases hv : key ≤ v
    · constructor
      · intro h
        simp [findInBlock, hv] at h
      · intro h
        exact absurd (h v (by simp)) (by omega)
    · rw [findInBlock]
      rw [if_neg hv, Option.map_eq_none', ih]
      constructor
      · intro h w hw
        rcases List.mem_cons.mp hw with hw | hw
        · omega
        · exact h w hw
      · intro h w hw
        exact h w (List.mem_cons_of_mem v hw)

theorem findFirstGE_none_iff (bs : List (List Nat)) (key : Nat) :
    findFirstGE bs key = none ↔ ∀ v ∈ bs.flatten, v < key := by
  induction bs with
  | nil => simp [findFirstGE]
  | cons blk rest ih =>
    cases hin : findInBlock blk key with
    | some off =>
      have hnot : ¬ ∀ v ∈ blk, v < key := by
        intro hall
        rw [← findInBlock_none_iff blk key] at hall
        simp [hall] at hin
      push_neg at hnot
      obtain ⟨v, hv, hle⟩ := hnot
      constructor
      · intro h
        rw [findFirstGE, hin] at h
        simp at h
      · intro h
        have hmem : v ∈ (blk :: rest).flatten := by
          rw [List.flatten_cons, List.mem_append]
          exact Or.inl hv
        exact absurd (h v hmem) (by omega)
    | none =>
      simp only [findFirstGE, hin, Option.map_eq_none', ih]
      rw [findInBlock_none_iff] at hin
      constructor
      · intro hall v hv
        rw [List.flatten_cons, List.mem_append] at hv
        rcases hv with hv' | hv'
        · exact hin v hv'
        · exact hall v hv'
      · intro hall v hv
        refine hall v ?_
        rw [List.flatten_cons, List.mem_append]
        exact Or.inr hv

/-- The in-block search returns the first in-block index whose value is at
or after the key. -/
theorem findInBlock_correct (blk : List Nat) (key off : Nat)
    (h : findInBlock blk key = some off) :
    off < blk.length ∧ key ≤ blk.getD off 0 ∧
    ∀ j, j < off → blk.getD j 0 < key := by
  induction blk generalizing off with
  | nil => simp [findInBlock] at h
  | cons v rest ih =>
    by_cases hv : key ≤ v
    · simp only [findInBlock, hv, if_true, Option.some.injEq] at h
      subst h
      simp [hv]
    · rw [findInBlock, if_neg hv, Option.map_eq_some'] at h
      obtain ⟨o, ho, hoff⟩ := h
      subst hoff
      have := ih o ho
      refine ⟨by simpa using this.1, by simpa using this.2.1, ?_⟩
      intro j hj
      cases j with
      | zero => simpa using by omega
      | succ j' =>
        rw [List.getD_cons_succ]
        exact this.2.2 j' (by omega)

theorem getD_append_lt (l1 l2 : List Nat) (n d : Nat) (h : n < l1.length) :
    (l1 ++ l2).getD n d = l1.getD n d :=
  List.getD_append l1 l2 d n h

theorem getD_append_add (l1 l2 : List Nat) (n d : Nat) :
    (l1 ++ l2).getD (l1.length + n) d = l2.getD n d := by
  simp [List.getD, List.getElem?_append_right (Nat.le_add_right l1.length n)]

theorem getD_lt_of_all_lt (l : List Nat) (key j : Nat)
    (hall : ∀ v ∈ l, v < key) (hj : j < l.length) : l.getD j 0 < key := by
  rw [List.getD_eq_getElem l 0 hj]
  exact hall _ (List.getElem_mem hj)

/-- The whole-file key search returns an in-bounds position whose flattened
index is the first one at or after the key; the flattened value there is the
block-local value. -/
theorem findFirstGE_correct (bs : List (List Nat)) (key b off : Nat)
    (h : findFirstGE bs key = some (b, off)) :
    b < bs.length ∧ off < (bs.getD b []).length ∧
    key ≤ bs.flatten.getD (firstOrdinalL bs b + off) 0 ∧
    (∀ j, j < firstOrdinalL bs b + off → bs.flatten.getD j 0 < key) ∧
    bs.flatten.getD (firstOrdinalL bs b + off) 0 = (bs.getD b []).getD off 0 := by
  induction bs generalizing b off with
  | nil => simp [findFirstGE] at h
  | cons blk rest ih =>
    cases hin : findInBlock blk key with
    | some o =>
      rw [findFirstGE, hin, Option.some.injEq, Prod.mk.injEq] at h
      obtain ⟨hb, hoff⟩ := h
      subst hb
      subst hoff
      have hc := findInBlock_correct blk key o hin
      rw [firstOrdinalL_zero, List.flatten_cons]
      refine ⟨by simp, by simpa using hc.1, ?_, ?_, ?_⟩
      · rw [Nat.zero_add, getD_append_lt _ _ _ _ hc.1]
        exact hc.2.1
      · intro j hj
        rw [Nat.zero_add] at hj
        rw [getD_append_lt _ _ _ _ (by omega)]
        exact hc.2.2 j hj
      · rw [Nat.zero_add, getD_append_lt _ _ _ _ hc.1]
        simp
    | none =>
      rw [findFirstGE, hin, Option.map_eq_some'] at h
      obtain ⟨p, hp, hval⟩ := h
      obtain ⟨b', o'⟩ := p
      have hb : b = b' + 1 := by
        have := congrArg Prod.fst hval
        simpa using this.symm
      have hoff : off = o' := by
        have := congrArg Prod.snd hval
        simpa using this.symm
      subst hb
      subst hoff
      have hrest := ih b' off hp
      have hall : ∀ v ∈ blk, v < key := (findInBlock_none_iff blk key).mp hin
      rw [firstOrdinalL_succ, List.flatten_cons]
      have hidx : blk.length + firstOrdinalL rest b' + off =
          blk.length + (firstOrdinalL rest b' + off) := by omega
      refine ⟨by simpa using hrest.1, by simpa using hrest.2.1, ?_, ?_, ?_⟩
      · rw [hidx, getD_append_add]
        exact hrest.2.2.1
      · intro j hj
        by_cases hjb : j < blk.length
        · rw [getD_append_lt _ _ _ _ hjb]
          exact getD_lt_of_all_lt blk key j hall hjb
        · have hj' : j = blk.length + (j - blk.length) := by omega
          rw [hj', getD_append_add]
          exact hrest.2.2.2.1 (j - blk.length) (by omega)
      · rw [hidx, getD_append_add, List.getD_cons_succ]
        exact hrest.2.2.2.2

/-- A position that is in bounds block-locally is in bounds in the flattened
file. -/
theorem firstOrdinalL_add_lt (bs : List (List Nat)) (b off : Nat)
    (hb : b < bs.length) (hoff : off < (bs.getD b []).length) :
    firstOrdinalL bs b + off < rowCountL bs := by
  induction bs generalizing b with
  | nil => simp at hb
  | cons blk rest ih =>
    cases b with
    | zero =>
      rw [firstOrdinalL_zero, rowCountL_cons]
      simp only [List.getD_cons_zero] at hoff
      omega
    | succ b' =>
      rw [firstOrdinalL_succ, rowCountL_cons]
      have := ih b' (by simpa using hb) (by simpa using hoff)
      omega

/-- C3: With no value index every `SeekAtOrAfter` call fails with
`NotSupported`; with a value index, a key strictly greater than every key in
the file fails with `NotFound`. -/
theorem seekAtOrAfter_noIndex_or_pastEnd
    (f : CFileModel) (s : IterState) (key : Nat) :
    (f.hasValidx = false → (seekAtOrAfter f s key).1 = Status.NotSupported) ∧
    (f.hasValidx = true → (∀ v ∈ allValues f, v < key) →
      (seekAtOrAfter f s key).1 = Status.NotFound) := by
  constructor
  · intro hv
    simp [seekAtOrAfter, hv]
  · intro hv hall
    have hnone : findFirstGE f.blocks key = none :=
      (findFirstGE_none_iff _ _).mpr hall
    simp [seekAtOrAfter, hv, hnone]

/-- Witness for C3: a file without a value index rejects the key seek as
`NotSupported`; one with a value index rejects a key above its maximum as
`NotFound`. -/
theorem seekAtOrAfter_noIndex_or_pastEnd_witness :
    (seekAtOrAfter (CFileModel.mk [[1, 2]] false) IterState.unseeked 5).1 =
      Status.NotSupported ∧
    (seekAtOrAfter (CFileModel.mk [[1, 2], [3]] true) IterState.unseeked 9).1 =
      Status.NotFound :=
  ⟨(seekAtOrAfter_noIndex_or_pastEnd (CFileModel.mk [[1, 2]] false)
      IterState.unseeked 5).1 rfl,
    (seekAtOrAfter_noIndex_or_pastEnd (CFileModel.mk [[1, 2], [3]] true)
      IterState.unseeked 9).2 rfl (by decide)⟩

/-- C4: With a value index and a key not exceeding the maximum indexed key,
`SeekAtOrAfter` succeeds and positions the cursor at the first entry whose
key is at or after the sought key, with `exact_match` true exactly when that
entry's key equals the sought key. -/
theorem seekAtOrAfter_first_ge
    (f : CFileModel) (s : IterState) (key : Nat)
    (hidx : f.hasValidx = true) (hex : ∃ v ∈ allValues f, key ≤ v) :
    (seekAtOrAfter f s key).1 = Status.OK ∧
    ∃ i, getCurrentOrdinal f (seekAtOrAfter f s key).2.2 = some i ∧
      i < (allValues f).length ∧
      key ≤ (allValues f).getD i 0 ∧
      (∀ j, j < i → (allValues f).getD j 0 < key) ∧
      ((seekAtOrAfter f s key).2.1 = true ↔ (allValues f).getD i 0 = key) := by
  have hsome : findFirstGE f.blocks key ≠ none := by
    intro hnone
    rw [findFirstGE_none_iff] at hnone
    obtain ⟨v, hv, hle⟩ := hex
    exact absurd (hnone v hv) (by omega)
  obtain ⟨⟨b, off⟩, hp⟩ := Option.ne_none_iff_exists'.mp hsome
  have hc := findFirstGE_correct f.blocks key b off hp
  have hlen : (allValues f).length = rowCountL f.blocks := by
    rw [allValues, List.length_flatten, rowCountL]
  constructor
  · simp [seekAtOrAfter, hidx, hp]
  · refine ⟨firstOrdinalL f.blocks b + off, ?_, ?_, hc.2.2.1, hc.2.2.2.1, ?_⟩
    · simp only [seekAtOrAfter, hidx, Bool.true_eq_false, if_false, hp]
      rfl
    · rw [hlen]
      exact firstOrdinalL_add_lt f.blocks b off hc.1 hc.2.1
    · simp only [seekAtOrAfter, hidx, Bool.true_eq_false, if_false, hp]
      rw [decide_eq_true_iff, allValues, hc.2.2.2.2]

/-- Witness for C4 on a concrete indexed file: seeking key 4 in values
`[1, 3, 5, 7]` lands on ordinal 2 (value 5) with `exact_match = false`. -/
theorem seekAtOrAfter_first_ge_witness :
    (seekAtOrAfter (CFileModel.mk [[1, 3], [5, 7]] true)
      IterState.unseeked 4).1 = Status.OK ∧
    ∃ i, getCurrentOrdinal (CFileModel.mk [[1, 3], [5, 7]] true)
        (seekAtOrAfter (CFileModel.mk [[1, 3], [5, 7]] true)
          IterState.unseeked 4).2.2 = some i ∧
      i < (allValues (CFileModel.mk [[1, 3], [5, 7]] true)).length ∧
      4 ≤ (allValues (CFileModel.mk [[1, 3], [5, 7]] true)).getD i 0 ∧
      (∀ j, j < i →
        (allValues (CFileModel.mk [[1, 3], [5, 7]] true)).getD j 0 < 4) ∧
      ((seekAtOrAfter (CFileModel.mk [[1, 3], [5, 7]] true)
          IterState.unseeked 4).2.1 = true ↔
        (allValues (CFileModel.mk [[1, 3], [5, 7]] true)).getD i 0 = 4) :=
  seekAtOrAfter_first_ge (CFileModel.mk [[1, 3], [5, 7]] true)
    IterState.unseeked 4 rfl (by decide)

/-- Modelled from the spec: the block-crossing copy loop of
`CFileIterator::CopyNextValues` (spec §4.2), over the suffix of blocks from
the currently loaded one on.  `off` is the decoder's position inside the
first listed block; the result is `(values copied, count written back,
blocks advanced, final in-block offset)`.  When the current block's values
are exhausted and a further block exists, the loop advances to it and
continues; at end of file it stops short. -/
def copyList : List (List Nat) → Nat → Nat → List Nat × Nat × Nat × Nat
  | [], off, _ => ([], 0, 0, off)
  | blk :: rest, off, n =>
    if n = 0 then ([], 0, 0, off)
    else
      let k := min n (blk.length - off)
      if k = n then ((blk.drop off).take k, k, 0, off + k)
      else
        match rest with
        | [] => ((blk.drop off).take k, k, 0, off + k)
        | b2 :: rest2 =>
          let r := copyList (b2 :: rest2) 0 (n - k)
          ((blk.drop off).take k ++ r.1, k + r.2.1, r.2.2.1 + 1, r.2.2.2)

/-- Modelled from the spec: `CFileIterator::CopyNextValues` (spec §4.2):
copies up to `n` values starting at the cursor, crossing block boundaries
transparently, and writes back the count actually copied; calling it before
any successful seek is a contract violation, rendered as `none`. -/
def copyNextValues (f : CFileModel) (s : IterState) (n : Nat) :
    Option (List Nat × Nat × IterState) :=
  match s with
  | IterState.unseeked => none
  | IterState.seeked b off =>
    some ((copyList (f.blocks.drop b) off n).1,
      (copyList (f.blocks.drop b) off n).2.1,
      IterState.seeked (b + (copyList (f.blocks.drop b) off n).2.2.1)
        (copyList (f.blocks.drop b) off n).2.2.2)

theorem copyList_zero (bs : List (List Nat)) (off : Nat) :
    copyList bs off 0 = ([], 0, 0, off) := by
  cases bs with
  | nil => rfl
  | cons blk rest => simp [copyList]

theorem flatten_drop_firstOrdinalL (bs : List (List Nat)) (b : Nat) :
    bs.flatten.drop (firstOrdinalL bs b) = (bs.drop b).flatten := by
  have hlen : ((bs.take b).flatten).length = firstOrdinalL bs b := by
    rw [List.length_flatten, firstOrdinalL]
  calc bs.flatten.drop (firstOrdinalL bs b)
      = (((bs.take b) ++ (bs.drop b)).flatten).drop
          ((bs.take b).flatten).length := by
        rw [hlen, List.take_append_drop]
    _ = ((bs.take b).flatten ++ (bs.drop b).flatten).drop
          ((bs.take b).flatten).length := by
        rw [List.flatten_append]
    _ = (bs.drop b).flatten := List.drop_left _ _

theorem rowCountL_split (bs : List (List Nat)) (b : Nat) :
    rowCountL bs = firstOrdinalL bs b + rowCountL (bs.drop b) := by
  conv_lhs => rw [← List.take_append_drop b bs]
  rw [rowCountL, List.map_append, List.sum_append]
  rfl

theorem firstOrdinalL_add (bs : List (List Nat)) (b c : Nat) :
    firstOrdinalL bs (b + c) =
      firstOrdinalL bs b + firstOrdinalL (bs.drop b) c := by
  rw [firstOrdinalL, List.take_add, List.map_append, List.sum_append]
  rfl

theorem headD_drop_getD (bs : List (List Nat)) (b : Nat) (h : b < bs.length) :
    (bs.drop b).headD [] = bs.getD b [] := by
  rw [List.drop_eq_getElem_cons h]
  simp [List.getD_eq_getElem bs [] h]

theorem copyList_cons_fits (blk : List Nat) (rest : List (List Nat))
    (off n : Nat) (hn : ¬ n = 0) (hfit : min n (blk.length - off) = n) :
    copyList (blk :: rest) off n =
      ((blk.drop off).take n, n, 0, off + n) := by
  rw [copyList]
  rw [if_neg hn]
  dsimp only
  rw [if_pos hfit, hfit]

theorem copyList_cons_last (blk : List Nat) (off n : Nat)
    (hn : ¬ n = 0) (hnofit : ¬ min n (blk.length - off) = n) :
    copyList [blk] off n =
      ((blk.drop off).take (min n (blk.length - off)),
        min n (blk.length - off), 0, off + min n (blk.length - off)) := by
  rw [copyList]
  rw [if_neg hn]
  dsimp only
  rw [if_neg hnofit]

theorem copyList_cons_more (blk b2 : List Nat) (rest2 : List (List Nat))
    (off n : Nat) (hn : ¬ n = 0)
    (hnofit : ¬ min n (blk.length - off) = n) :
    copyList (blk :: b2 :: rest2) off n =
      ((blk.drop off).take (min n (blk.length - off)) ++
          (copyList (b2 :: rest2) 0 (n - min n (blk.length - off))).1,
        min n (blk.length - off) +
          (copyList (b2 :: rest2) 0 (n - min n (blk.length - off))).2.1,
        (copyList (b2 :: rest2) 0 (n - min n (blk.length - off))).2.2.1 + 1,
        (copyList (b2 :: rest2) 0 (n - min n (blk.length - off))).2.2.2) := by
  rw [copyList]
  rw [if_neg hn]
  dsimp only
  rw [if_neg hnofit]

/-- Behaviour of the copy loop from a position inside the first listed
block: the count written back is the request clipped to the rows remaining,
the values are exactly the corresponding run of the flattened suffix, the
loop never advances past the last block, and the final position is the
start position advanced by the count. -/
theorem copyList_spec (bs : List (List Nat)) (off n : Nat)
    (h : off ≤ (bs.headD []).length) :
    (copyList bs off n).2.1 = min n (rowCountL bs - off) ∧
    (copyList bs off n).1 =
      (bs.flatten.drop off).take ((copyList bs off n).2.1) ∧
    (copyList bs off n).2.2.1 ≤ bs.length ∧
    firstOrdinalL bs (copyList bs off n).2.2.1 + (copyList bs off n).2.2.2 =
      off + (copyList bs off n).2.1 ∧
    (copyList bs off n).2.2.2 ≤ (bs.getD (copyList bs off n).2.2.1 []).length := by
  induction bs generalizing off n with
  | nil =>
    simp only [List.headD_nil, List.length_nil, Nat.le_zero] at h
    subst h
    simp [copyList, rowCountL, firstOrdinalL]
  | cons blk rest ih =>
    simp only [List.headD_cons] at h
    by_cases hn : n = 0
    · subst hn
      rw [copyList_zero]
      dsimp only
      refine ⟨by simp, by simp, by simp, ?_, by simpa using h⟩
      rw [firstOrdinalL_zero]
      omega
    · by_cases hkn : min n (blk.length - off) = n
      · rw [copyList_cons_fits blk rest off n hn hkn]
        dsimp only
        refine ⟨?_, ?_, by simp, ?_, ?_⟩
        · rw [rowCountL_cons]
          omega
        · rw [List.flatten_cons, List.drop_append_eq_append_drop,
            Nat.sub_eq_zero_of_le h, List.drop_zero,
            List.take_append_eq_append_take]
          have hz : n - (blk.drop off).length = 0 := by
            rw [List.length_drop]
            omega
          rw [hz, List.take_zero, List.append_nil]
        · rw [firstOrdinalL_zero]
          omega
        · simp only [List.getD_cons_zero]
          omega
      · cases rest with
        | nil =>
          rw [copyList_cons_last blk off n hn hkn]
          dsimp only
          have hkval : min n (blk.length - off) = blk.length - off := by
            omega
          refine ⟨?_, ?_, by simp, ?_, ?_⟩
          · rw [rowCountL_cons, rowCountL]
            simp only [List.map_nil, List.sum_nil]
            omega
          · rw [List.flatten_cons, List.flatten_nil, List.append_nil]
          · rw [firstOrdinalL_zero]
            omega
          · simp only [List.getD_cons_zero]
            omega
        | cons b2 rest2 =>
          rw [copyList_cons_more blk b2 rest2 off n hn hkn]
          dsimp only
          have hih := ih 0 (n - min n (blk.length - off)) (by simp)
          have hkval : min n (blk.length - off) = blk.length - off := by
            omega
          refine ⟨?_, ?_, ?_, ?_, ?_⟩
          · rw [rowCountL_cons, hih.1]
            omega
          · rw [List.flatten_cons, List.drop_append_eq_append_drop,
              Nat.sub_eq_zero_of_le h, List.drop_zero,
              List.take_append_eq_append_take, hih.2.1, List.drop_zero]
            have h1 : (blk.drop off).take (min n (blk.length - off)) =
                blk.drop off := by
              apply List.take_of_length_le
              rw [List.length_drop]
              omega
            have h2 : (blk.drop off).take (min n (blk.length - off) +
                (copyList (b2 :: rest2) 0
                  (n - min n (blk.length - off))).2.1) = blk.drop off := by
              apply List.take_of_length_le
              rw [List.length_drop]
              omega
            rw [h1, h2, List.length_drop]
            have h3 : min n (blk.length - off) +
                (copyList (b2 :: rest2) 0
                  (n - min n (blk.length - off))).2.1 -
                (blk.length - off) =
                (copyList (b2 :: rest2) 0
                  (n - min n (blk.length - off))).2.1 := by
              omega
            rw [h3]
          · have := hih.2.2.1
            simp only [List.length_cons] at this ⊢
            omega
          · rw [firstOrdinalL_succ]
            have := hih.2.2.2.1
            omega
          · rw [List.getD_cons_succ]
            exact hih.2.2.2.2

/-- C5: From every seeked cursor position, `CopyNextValues` succeeds,
copies the requested run of values starting at the cursor — continuing
transparently across block boundaries — and writes back the count actually
copied; that count is the request clipped to the rows remaining, it falls
short of the request only when the end of the file is reached, and the
cursor advances by exactly the written-back count. -/
theorem copyNextValues_spec
    (f : CFileModel) (b off n : Nat)
    (hb : b < f.blocks.length) (hoff : off ≤ (f.blocks.getD b []).length) :
    ∃ vals cnt s1,
      copyNextValues f (IterState.seeked b off) n = some (vals, cnt, s1) ∧
      vals = ((allValues f).drop (firstOrdinalL f.blocks b + off)).take cnt ∧
      cnt = min n (f.rowCount - (firstOrdinalL f.blocks b + off)) ∧
      (cnt < n → firstOrdinalL f.blocks b + off + cnt = f.rowCount) ∧
      getCurrentOrdinal f s1 =
        some (firstOrdinalL f.blocks b + off + cnt) := by
  have hhead : off ≤ ((f.blocks.drop b).headD []).length := by
    rw [headD_drop_getD f.blocks b hb]
    exact hoff
  have hs := copyList_spec (f.blocks.drop b) off n hhead
  have hsplit : f.rowCount =
      firstOrdinalL f.blocks b + rowCountL (f.blocks.drop b) :=
    rowCountL_split f.blocks b
  have hofr : off ≤ rowCountL (f.blocks.drop b) := by
    rw [List.drop_eq_getElem_cons hb, rowCountL_cons]
    rw [List.getD_eq_getElem f.blocks [] hb] at hoff
    omega
  refine ⟨_, _, _, rfl, ?_, ?_, ?_, ?_⟩
  · rw [allValues, ← List.drop_drop, flatten_drop_firstOrdinalL]
    exact hs.2.1
  · rw [hs.1, hsplit]
    omega
  · intro hlt
    rw [hs.1] at hlt
    rw [hs.1, hsplit]
    omega
  · simp only [getCurrentOrdinal, Option.some.injEq]
    rw [firstOrdinalL_add]
    have := hs.2.2.2.1
    omega

/-- Witness for C5 on a two-block file: from ordinal 1 a request of 10 rows
copies the 4 remaining values across the block boundary. -/
theorem copyNextValues_spec_witness :
    (0 : Nat) < (CFileModel.mk [[10, 11], [12, 13, 14]] false).blocks.length ∧
    (1 : Nat) ≤
      ((CFileModel.mk [[10, 11], [12, 13, 14]] false).blocks.getD 0
        []).length ∧
    ∃ vals cnt s1,
      copyNextValues (CFileModel.mk [[10, 11], [12, 13, 14]] false)
        (IterState.seeked 0 1) 10 = some (vals, cnt, s1) ∧
      vals = ((allValues (CFileModel.mk [[10, 11], [12, 13, 14]] false)).drop
          (firstOrdinalL (CFileModel.mk [[10, 11], [12, 13, 14]] false).blocks
            0 + 1)).take cnt ∧
      cnt = min 10
        ((CFileModel.mk [[10, 11], [12, 13, 14]] false).rowCount -
          (firstOrdinalL (CFileModel.mk [[10, 11], [12, 13, 14]] false).blocks
            0 + 1)) ∧
      (cnt < 10 →
        firstOrdinalL (CFileModel.mk [[10, 11], [12, 13, 14]] false).blocks 0 +
          1 + cnt = (CFileModel.mk [[10, 11], [12, 13, 14]] false).rowCount) ∧
      getCurrentOrdinal (CFileModel.mk [[10, 11], [12, 13, 14]] false) s1 =
        some (firstOrdinalL
          (CFileModel.mk [[10, 11], [12, 13, 14]] false).blocks 0 + 1 +
            cnt) :=
  ⟨by decide, by decide,
    copyNextValues_spec (CFileModel.mk [[10, 11], [12, 13, 14]] false) 0 1 10
      (by decide) (by decide)⟩

/-- Sequential composition of two copy-loop results: concatenated values,
summed counts and block advances, final offset of the second. -/
def seqResult (r1 r2 : List Nat × Nat × Nat × Nat) :
    List Nat × Nat × Nat × Nat :=
  (r1.1 ++ r2.1, r1.2.1 + r2.2.1, r1.2.2.1 + r2.2.2.1, r2.2.2.2)

/-- The copy loop decomposes: copying `m + k` rows equals copying `m` rows
and then `k` more from the resulting position. -/
theorem copyList_add (bs : List (List Nat)) (off m k : Nat) :
    copyList bs off (m + k) =
      seqResult (copyList bs off m)
        (copyList (bs.drop (copyList bs off m).2.2.1)
          (copyList bs off m).2.2.2 k) := by
  induction bs generalizing off m k with
  | nil =>
    simp [copyList, seqResult]
  | cons blk rest ih =>
    by_cases hm : m = 0
    · subst hm
      rw [copyList_zero]
      simp [seqResult]
    · by_cases hk : k = 0
      · subst hk
        rw [Nat.add_zero, copyList_zero]
        simp [seqResult]
      · have hmk : ¬ m + k = 0 := by omega
        by_cases hfitmk : min (m + k) (blk.length - off) = m + k
        · have hfitm : min m (blk.length - off) = m := by omega
          have hfitk : min k (blk.length - (off + m)) = k := by omega
          rw [copyList_cons_fits blk rest off (m + k) hmk hfitmk,
            copyList_cons_fits blk rest off m hm hfitm]
          dsimp only [seqResult]
          rw [List.drop_zero,
            copyList_cons_fits blk rest (off + m) k hk hfitk]
          dsimp only
          rw [List.take_add, List.drop_drop]
          simp [Nat.add_assoc]
        · by_cases hfitm2 : min m (blk.length - off) = m
          · rw [copyList_cons_fits blk rest off m hm hfitm2]
            dsimp only [seqResult]
            rw [List.drop_zero]
            have hnofitk : ¬ min k (blk.length - (off + m)) = k := by
              omega
            cases rest with
            | nil =>
              rw [copyList_cons_last blk off (m + k) hmk hfitmk,
                copyList_cons_last blk (off + m) k hk hnofitk]
              dsimp only
              have e1 : min (m + k) (blk.length - off) =
                  m + min k (blk.length - (off + m)) := by omega
              rw [e1, List.take_add, List.drop_drop]
              simp [Nat.add_assoc]
            | cons b2 rest2 =>
              rw [copyList_cons_more blk b2 rest2 off (m + k) hmk hfitmk,
                copyList_cons_more blk b2 rest2 (off + m) k hk hnofitk]
              dsimp only
              have e2 : (m + k) - min (m + k) (blk.length - off) =
                  k - min k (blk.length - (off + m)) := by omega
              have e1 : min (m + k) (blk.length - off) =
                  m + min k (blk.length - (off + m)) := by omega
              rw [e2, e1, List.take_add, List.drop_drop]
              simp [Nat.add_assoc, List.append_assoc]
          · cases rest with
            | nil =>
              rw [copyList_cons_last blk off (m + k) hmk hfitmk,
                copyList_cons_last blk off m hm hfitm2]
              dsimp only [seqResult]
              rw [List.drop_zero]
              have hnofitk2 : ¬ min k
                  (blk.length - (off + min m (blk.length - off))) = k := by
                omega
              rw [copyList_cons_last blk
                (off + min m (blk.length - off)) k hk hnofitk2]
              dsimp only
              have hz : blk.length -
                  (off + min m (blk.length - off)) = 0 := by
                omega
              have hmk2 : min (m + k) (blk.length - off) =
                  min m (blk.length - off) := by omega
              rw [hz, hmk2]
              simp
            | cons b2 rest2 =>
              rw [copyList_cons_more blk b2 rest2 off (m + k) hmk hfitmk,
                copyList_cons_more blk b2 rest2 off m hm hfitm2]
              dsimp only [seqResult]
              have hmineq : min (m + k) (blk.length - off) =
                  min m (blk.length - off) := by omega
              have hsub : (m + k) - min (m + k) (blk.length - off) =
                  (m - min m (blk.length - off)) + k := by omega
              rw [hsub, hmineq, ih 0 (m - min m (blk.length - off)) k]
              dsimp only [seqResult]
              rw [List.drop_succ_cons]
              simp only [Prod.mk.injEq]
              refine ⟨?_, ?_, ?_, trivial⟩
              · rw [List.append_assoc]
              · omega
              · omega

/-- Modelled from the spec: repeated single-value CopyNextValues calls (spec
§8 bulk-versus-unit property): performs the given number of calls each
requesting one value, accumulating the copied values and threading the
cursor state. -/
def unitCopies (f : CFileModel) : Nat → IterState → List Nat × IterState
  | 0, s => ([], s)
  | j + 1, s =>
    match copyNextValues f s 1 with
    | none => ([], s)
    | some r =>
      (r.1 ++ (unitCopies f j r.2.2).1, (unitCopies f j r.2.2).2)

theorem unitCopies_eq (f : CFileModel) (j b off : Nat) :
    unitCopies f j (IterState.seeked b off) =
      ((copyList (f.blocks.drop b) off j).1,
        IterState.seeked (b + (copyList (f.blocks.drop b) off j).2.2.1)
          (copyList (f.blocks.drop b) off j).2.2.2) := by
  induction j generalizing b off with
  | zero =>
    rw [copyList_zero]
    rfl
  | succ j ihj =>
    simp only [unitCopies, copyNextValues]
    rw [ihj (b + (copyList (f.blocks.drop b) off 1).2.2.1)
      (copyList (f.blocks.drop b) off 1).2.2.2]
    have hjs : j + 1 = 1 + j := by omega
    rw [hjs, copyList_add (f.blocks.drop b) off 1 j]
    dsimp only [seqResult]
    rw [List.drop_drop]
    simp [Nat.add_assoc]

/-- C6: One bulk `CopyNextValues` call requesting `row_count` values yields
the same sequence of values and leaves the iterator at the same final
position as `row_count` successive calls each requesting one value, from
every file and every seeked starting cursor position. -/
theorem copyNextValues_bulk_eq_units (f : CFileModel) (b off : Nat) :
    (copyNextValues f (IterState.seeked b off) f.rowCount).map
        (fun r => (r.1, r.2.2)) =
      some (unitCopies f f.rowCount (IterState.seeked b off)) := by
  rw [unitCopies_eq]
  rfl

/-- Reader lifecycle state (`cfile_reader.h:151`): `kUninitialized` until a
successful `Init`, then `kInitialized`, one-way. -/
inductive State
  | kUninitialized
  | kInitialized
deriving DecidableEq, Repr

/-- Block location descriptor (spec §3: offset and size within the file); a
pure value type. -/
structure BlockPointer where
  offset : Nat
  size : Nat
deriving DecidableEq, Repr

/-- The footer metadata record `CFileFooterPB` as consumed by the inline
accessors of `cfile_reader.h` (an opaque structured record with typed field
accessors, spec §6); the data-type tag is modelled as `Nat`. -/
structure CFileFooterPB where
  data_type : Nat
  has_posidx_info : Bool
  posidx_root_block : BlockPointer
  has_validx_info : Bool
  validx_root_block : BlockPointer
deriving DecidableEq, Repr

/-- `CFileReader`'s fields as read by its accessors (`cfile_reader.h:70`):
the lifecycle state (set to `kUninitialized` by the constructor,
`cfile_reader.h:78`), the footer (a `scoped_ptr`, null until `Init` parses
it) and the resolved type-info descriptor (unset until `Init`). -/
structure CFileReader where
  state : State
  footer : Option CFileFooterPB
  type_info_ : Option Nat
deriving DecidableEq, Repr

/-- Outcome of calling an accessor: a `CHECK`/`DCHECK` macro fired (an
assertion-style contract violation), the call dereferenced an unset
`scoped_ptr` (undefined behaviour, not a contract check), or a value was
returned. -/
inductive AccessorResult (α : Type)
  | checkFailed
  | nullDeref
  | ok (a : α)
deriving DecidableEq, Repr

/-- `CFileReader::data_type` (`cfile_reader.h:101`): `CHECK_EQ(state_,
kInitialized)` fires first, then `footer_->data_type()` is read. -/
def CFileReader.data_type (r : CFileReader) : AccessorResult Nat :=
  if r.state ≠ State.kInitialized then AccessorResult.checkFailed
  else
    match r.footer with
    | none => AccessorResult.nullDeref
    | some ft => AccessorResult.ok ft.data_type

/-- `CFileReader::type_info` (`cfile_reader.h:106`): `DCHECK_EQ(state_,
kInitialized)` fires first, then the `type_info_` member is returned. -/
def CFileReader.type_info (r : CFileReader) : AccessorResult (Option Nat) :=
  if r.state ≠ State.kInitialized then AccessorResult.checkFailed
  else AccessorResult.ok r.type_info_

/-- `CFileReader::has_posidx` (`cfile_reader.h:117`): returns
`footer_->has_posidx_info()` with no state check at all — before `Init` the
null footer pointer is dereferenced. -/
def CFileReader.has_posidx (r : CFileReader) : AccessorResult Bool :=
  match r.footer with
  | none => AccessorResult.nullDeref
  | some ft => AccessorResult.ok ft.has_posidx_info

/-- `CFileReader::posidx_root` (`cfile_reader.h:118`):
`DCHECK(has_posidx())` — evaluating `has_posidx()` dereferences the footer
before any check can fire — then the root block is read. -/
def CFileReader.posidx_root (r : CFileReader) : AccessorResult BlockPointer :=
  match r.footer with
  | none => AccessorResult.nullDeref
  | some ft =>
    if ¬ ft.has_posidx_info then AccessorResult.checkFailed
    else AccessorResult.ok ft.posidx_root_block

/-- `CFileReader::has_validx` (`cfile_reader.h:124`): returns
`footer_->has_validx_info()` with no state check at all. -/
def CFileReader.has_validx (r : CFileReader) : AccessorResult Bool :=
  match r.footer with
  | none => AccessorResult.nullDeref
  | some ft => AccessorResult.ok ft.has_validx_info

/-- `CFileReader::validx_root` (`cfile_reader.h:125`):
`DCHECK(has_validx())` — evaluating `has_validx()` dereferences the footer
first — then the root block is read. -/
def CFileReader.validx_root (r : CFileReader) : AccessorResult BlockPointer :=
  match r.footer with
  | none => AccessorResult.nullDeref
  | some ft =>
    if ¬ ft.has_validx_info then AccessorResult.checkFailed
    else AccessorResult.ok ft.validx_root_block

/-- C7 counterexample: on a freshly constructed reader (state
`kUninitialized` and footer unset, exactly as the constructor at
`cfile_reader.h:72` leaves them), `has_posidx` does not fail with an
assertion-style contract violation — it dereferences the null footer
pointer instead, refuting the claim that every read-only accessor checks
for the `Initialized` state. -/
theorem has_posidx_uninitialized_not_checkFailed :
    CFileReader.has_posidx
        (CFileReader.mk State.kUninitialized none none) ≠
      AccessorResult.checkFailed := by
  decide

/-- C7 (amended): on a reader still in the `kUninitialized` state with the
footer not yet parsed, `data_type` and `type_info` fail loudly with their
`CHECK_EQ`/`DCHECK_EQ` contract checks, while `has_posidx`, `posidx_root`,
`has_validx` and `validx_root` perform no state check and instead
dereference the unset footer pointer (undefined behaviour, with
`posidx_root`/`validx_root` asserting only index presence). -/
theorem accessors_uninitialized_behaviour
    (r : CFileReader) (hst : r.state = State.kUninitialized)
    (hft : r.footer = none) :
    r.data_type = AccessorResult.checkFailed ∧
    r.type_info = AccessorResult.checkFailed ∧
    r.has_posidx = AccessorResult.nullDeref ∧
    r.posidx_root = AccessorResult.nullDeref ∧
    r.has_validx = AccessorResult.nullDeref ∧
    r.validx_root = AccessorResult.nullDeref := by
  obtain ⟨st, ft, ti⟩ := r
  dsimp only at hst hft
  subst hst
  subst hft
  refine ⟨rfl, rfl, rfl, rfl, rfl, rfl⟩

/-- Witness for the amended C7 on the freshly constructed reader. -/
theorem accessors_uninitialized_behaviour_witness :
    (CFileReader.mk State.kUninitialized none none).data_type =
      AccessorResult.checkFailed ∧
    (CFileReader.mk State.kUninitialized none none).type_info =
      AccessorResult.checkFailed ∧
    (CFileReader.mk State.kUninitialized none none).has_posidx =
      AccessorResult.nullDeref ∧
    (CFileReader.mk State.kUninitialized none none).posidx_root =
      AccessorResult.nullDeref ∧
    (CFileReader.mk State.kUninitialized none none).has_validx =
      AccessorResult.nullDeref ∧
    (CFileReader.mk State.kUninitialized none none).validx_root =
      AccessorResult.nullDeref :=
  accessors_uninitialized_behaviour
    (CFileReader.mk State.kUninitialized none none) rfl rfl

/-- A byte slice: a view into a backing buffer identified by `bufId`,
starting at `off` with length `len` (the `Slice` type of the sources: a
view over memory it does not own; bytes modelled as `Nat`). -/
structure Slice where
  bufId : Nat
  off : Nat
  len : Nat
deriving DecidableEq, Repr

/-- A `boost::shared_array<char>` handle: null or a reference to a buffer
id; the heap below carries reference counts (spec §5: ownership is
reference-counted, released once the last copy goes out of scope). -/
structure SharedArray where
  id : Option Nat
deriving DecidableEq, Repr

/-- The allocation state backing the shared arrays: per-id byte contents
and reference counts; a buffer stays allocated while its count is
positive. -/
structure Heap where
  contents : Nat → List Nat
  refcount : Nat → Nat

/-- `BlockData` (`cfile_reader.h:46`): the slice `data_` and the
shared-array handle `data_for_free_` that keeps the underlying buffer
alive. -/
structure BlockData where
  data_ : Slice
  data_for_free_ : SharedArray
deriving DecidableEq, Repr

/-- `BlockData::slice` (`cfile_reader.h:61`): returns the slice member. -/
def BlockData.slice (bd : BlockData) : Slice := bd.data_

/-- Copying a `shared_array` handle bumps the buffer's reference count;
buffer contents are untouched. -/
def Heap.incRef (h : Heap) (sa : SharedArray) : Heap :=
  match sa.id with
  | none => h
  | some i =>
    ⟨h.contents, fun j => if j = i then h.refcount j + 1 else h.refcount j⟩

/-- Dropping a `shared_array` handle decrements the buffer's reference
count; the buffer is freed when the count reaches zero. -/
def Heap.decRef (h : Heap) (sa : SharedArray) : Heap :=
  match sa.id with
  | none => h
  | some i =>
    ⟨h.contents, fun j => if j = i then h.refcount j - 1 else h.refcount j⟩

/-- The `BlockData` copy constructor (`cfile_reader.h:56`): member-copies
the slice and the shared-array handle; the only heap effect is the handle
copy's reference-count bump — no buffer bytes are copied. -/
def BlockData.copyCtor (bd : BlockData) (h : Heap) : BlockData × Heap :=
  (BlockData.mk bd.data_ bd.data_for_free_, h.incRef bd.data_for_free_)

/-- Destruction of a `BlockData`: drops its shared-array reference. -/
def BlockData.destroy (bd : BlockData) (h : Heap) : Heap :=
  h.decRef bd.data_for_free_

/-- The bytes observed through a slice under a heap. -/
def Heap.readSlice (h : Heap) (s : Slice) : List Nat :=
  ((h.contents s.bufId).drop s.off).take s.len

/-- A buffer is live while some owner still references it. -/
def Heap.live (h : Heap) (i : Nat) : Prop := 0 < h.refcount i

/-- C8: Copy-constructing a `BlockData` copies no buffer bytes (the heap
contents are untouched), the copy refers to the same slice and the same
shared backing buffer, `slice()` on either observes identical byte content,
and destroying one copy leaves the buffer backing the other copy live. -/
theorem blockData_copy_semantics (h : Heap) (bd : BlockData) (i : Nat)
    (hid : bd.data_for_free_.id = some i) (hlive : h.live i) :
    ((bd.copyCtor h).2).contents = h.contents ∧
    (bd.copyCtor h).1.slice = bd.slice ∧
    (bd.copyCtor h).1.data_for_free_ = bd.data_for_free_ ∧
    ((bd.copyCtor h).2).readSlice ((bd.copyCtor h).1.slice) =
      ((bd.copyCtor h).2).readSlice bd.slice ∧
    Heap.live ((bd.copyCtor h).1.destroy ((bd.copyCtor h).2)) i := by
  refine ⟨?_, rfl, rfl, rfl, ?_⟩
  · rw [BlockData.copyCtor, Heap.incRef, hid]
  · rw [Heap.live] at hlive
    simp only [BlockData.copyCtor, BlockData.destroy, Heap.incRef,
      Heap.decRef, Heap.live, hid, eq_self_iff_true, if_true]
    omega

/-- Witness for C8 on a concrete heap holding one buffer `[7, 8, 9]` with a
single owner. -/
theorem blockData_copy_semantics_witness :
    ((BlockData.mk (Slice.mk 0 0 3) (SharedArray.mk (some 0))).copyCtor
        (Heap.mk (fun _ => [7, 8, 9])
          (fun j => if j = 0 then 1 else 0))).2.contents =
      (Heap.mk (fun _ => [7, 8, 9])
        (fun j => if j = 0 then 1 else 0)).contents ∧
    ((BlockData.mk (Slice.mk 0 0 3) (SharedArray.mk (some 0))).copyCtor
        (Heap.mk (fun _ => [7, 8, 9])
          (fun j => if j = 0 then 1 else 0))).1.slice =
      (BlockData.mk (Slice.mk 0 0 3) (SharedArray.mk (some 0))).slice ∧
    ((BlockData.mk (Slice.mk 0 0 3) (SharedArray.mk (some 0))).copyCtor
        (Heap.mk (fun _ => [7, 8, 9])
          (fun j => if j = 0 then 1 else 0))).1.data_for_free_ =
      (BlockData.mk (Slice.mk 0 0 3)
        (SharedArray.mk (some 0))).data_for_free_ ∧
    ((BlockData.mk (Slice.mk 0 0 3) (SharedArray.mk (some 0))).copyCtor
        (Heap.mk (fun _ => [7, 8, 9])
          (fun j => if j = 0 then 1 else 0))).2.readSlice
        (((BlockData.mk (Slice.mk 0 0 3) (SharedArray.mk (some 0))).copyCtor
          (Heap.mk (fun _ => [7, 8, 9])
            (fun j => if j = 0 then 1 else 0))).1.slice) =
      ((BlockData.mk (Slice.mk 0 0 3) (SharedArray.mk (some 0))).copyCtor
        (Heap.mk (fun _ => [7, 8, 9])
          (fun j => if j = 0 then 1 else 0))).2.readSlice
        ((BlockData.mk (Slice.mk 0 0 3) (SharedArray.mk (some 0))).slice) ∧
    Heap.live
      (((BlockData.mk (Slice.mk 0 0 3) (SharedArray.mk (some 0))).copyCtor
          (Heap.mk (fun _ => [7, 8, 9])
            (fun j => if j = 0 then 1 else 0))).1.destroy
        (((BlockData.mk (Slice.mk 0 0 3) (SharedArray.mk (some 0))).copyCtor
          (Heap.mk (fun _ => [7, 8, 9])
            (fun j => if j = 0 then 1 else 0))).2)) 0 :=
  blockData_copy_semantics
    (Heap.mk (fun _ => [7, 8, 9]) (fun j => if j = 0 then 1 else 0))
    (BlockData.mk (Slice.mk 0 0 3) (SharedArray.mk (some 0))) 0 rfl
    (by simp only [Heap.live]; decide)

/-- The `scoped_ptr` overload of `CFileReader::NewIterator`
(`cfile_reader.h:84`), translated literally: invoke the raw-pointer
overload (represented by its result: the returned status, together with the
iterator written through the out-parameter, meaningful only on success);
`RETURN_NOT_OK` propagates a non-OK status leaving the `scoped_ptr`
untouched; on success the `scoped_ptr` is reset to the fresh iterator and
`Status::OK()` is returned.  Polymorphic in the iterator representation. -/
def newIteratorScoped {α : Type} (raw : Status × α) (slot : Option α) :
    Status × Option α :=
  if raw.1 = Status.OK then (Status.OK, some raw.2)
  else (raw.1, slot)

/-- C9: the `scoped_ptr` overload of `NewIterator` returns exactly the
status of the raw-pointer overload, stores the freshly created iterator
into the `scoped_ptr` when that status is OK, and leaves the `scoped_ptr`
unmodified when the raw-pointer overload fails. -/
theorem newIteratorScoped_equiv {α : Type} (raw : Status × α)
    (slot : Option α) :
    (newIteratorScoped raw slot).1 = raw.1 ∧
    (raw.1 = Status.OK → (newIteratorScoped raw slot).2 = some raw.2) ∧
    (raw.1 ≠ Status.OK → (newIteratorScoped raw slot).2 = slot) := by
  by_cases hok : raw.1 = Status.OK
  · simp [newIteratorScoped, hok]
  · simp [newIteratorScoped, hok]

/-- Witness for C9 at a succeeding and a failing raw overload. -/
theorem newIteratorScoped_equiv_witness :
    ((newIteratorScoped (Status.OK, (42 : Nat)) none).1 = Status.OK ∧
      (Status.OK = Status.OK →
        (newIteratorScoped (Status.OK, (42 : Nat)) none).2 = some 42) ∧
      (Status.OK ≠ Status.OK →
        (newIteratorScoped (Status.OK, (42 : Nat)) none).2 = none)) ∧
    ((newIteratorScoped (Status.IOError, (7 : Nat)) (some 1)).1 =
        Status.IOError ∧
      (Status.IOError = Status.OK →
        (newIteratorScoped (Status.IOError, (7 : Nat)) (some 1)).2 =
          some 7) ∧
      (Status.IOError ≠ Status.OK →
        (newIteratorScoped (Status.IOError, (7 : Nat)) (some 1)).2 =
          some 1)) :=
  ⟨newIteratorScoped_equiv (Status.OK, 42) none,
    newIteratorScoped_equiv (Status.IOError, 7) (some 1)⟩

end cfile

end kudu
